import Mathlib

/-!
# Verification of the DealerBuilt API integration client

Shallow embedding of `src/services/dealerbuilt_api.py` (class
`DealerBuiltAPIService`): cache-key fingerprinting (`_get_cache_key`),
TTL validity (`_is_cache_valid`), the request orchestration
(`_make_api_request`), SOAP response normalization
(`_parse_soap_response`), envelope construction (`_create_soap_envelope`)
and `clear_cache`.

Python `dict`s are modelled as association lists in insertion order with
pairwise-distinct keys; `time.time()` instants are modelled as integers;
the Python standard library pieces the client calls into
(`json.dumps(..., sort_keys=True)`, `hashlib.md5`, UTF-8 encoding) are
implemented concretely below so that every definition is executable.
-/

/-- JSON-serializable parameter values occurring in requests
(`parameters: Dict[str, Any]` — strings, integers, or `None`). -/
inductive JVal where
  | jstr (s : String)
  | jnum (n : Int)
  | jnull
deriving DecidableEq, Repr

/-- A Python parameter `dict`: key/value pairs in insertion order. -/
abbrev Params := List (String × JVal)

/-- Lower-case hex digit for `n < 16`. -/
def hexDigitChar (n : Nat) : Char :=
  if n < 10 then Char.ofNat (48 + n) else Char.ofNat (87 + n)

/-- Four lower-case hex digits of `n < 2^16` (as in Python's `\uXXXX`). -/
def hex4Chars (n : Nat) : List Char :=
  [hexDigitChar (n / 4096 % 16), hexDigitChar (n / 256 % 16),
   hexDigitChar (n / 16 % 16), hexDigitChar (n % 16)]

/-- The same four hex digits as a string. -/
def hex4 (n : Nat) : String :=
  String.mk (hex4Chars n)

/-- Escape one character the way Python's `json.dumps` (with its default
`ensure_ascii=True`) does inside string literals. -/
def jsonEscapeChar (c : Char) : String :=
  if c = '"' then "\\\""
  else if c = '\\' then "\\\\"
  else if c = '\n' then "\\n"
  else if c = '\r' then "\\r"
  else if c = '\t' then "\\t"
  else if c.toNat = 8 then "\\b"
  else if c.toNat = 12 then "\\f"
  else if c.toNat < 32 then "\\u" ++ hex4 c.toNat
  else if c.toNat < 127 then String.mk [c]
  else if c.toNat < 65536 then "\\u" ++ hex4 c.toNat
  else "\\u" ++ hex4 (55296 + (c.toNat - 65536) / 1024) ++
    "\\u" ++ hex4 (56320 + (c.toNat - 65536) % 1024)

/-- Concatenated escapes of a character sequence. -/
def escString : List Char → String
  | [] => ""
  | c :: t => jsonEscapeChar c ++ escString t

/-- A JSON string literal: quotes around the escaped characters. -/
def jsonQuote (s : String) : String :=
  "\"" ++ escString s.data ++ "\""

/-- Decimal digits of a natural number (Python `str(n)` for `n >= 0`). -/
def natDigits (n : Nat) : List Char :=
  if n < 10 then [hexDigitChar n]
  else natDigits (n / 10) ++ [hexDigitChar (n % 10)]
termination_by n
decreasing_by exact Nat.div_lt_self (by omega) (by omega)

/-- Decimal rendering of an integer (Python `str(n)`): a `-` sign
followed by the digits of the absolute value when negative. -/
def intChars (n : Int) : List Char :=
  if n < 0 then '-' :: natDigits n.natAbs else natDigits n.toNat

/-- Serialization of a single JSON value (`json.dumps` on a scalar). -/
def jsonDumpVal : JVal → String
  | .jstr s => jsonQuote s
  | .jnum n => String.mk (intChars n)
  | .jnull => "null"

/-- Comparison of parameter pairs by key (Python sorts `str` keys
lexicographically by code point, which is `String`'s order). -/
def keyLe (a b : String × JVal) : Prop := a.1 ≤ b.1

instance : DecidableRel keyLe := fun a b => inferInstanceAs (Decidable (a.1 ≤ b.1))

instance : IsTotal (String × JVal) keyLe := ⟨fun a b => le_total a.1 b.1⟩

instance : IsTrans (String × JVal) keyLe := ⟨fun _ _ _ h h' => le_trans h h'⟩

/-- One serialized object entry `"key": value`. -/
def entryStr (kv : String × JVal) : String :=
  jsonQuote kv.1 ++ ": " ++ jsonDumpVal kv.2

/-- Serialized entries joined by the default item separator `', '`. -/
def dumpEntries : List (String × JVal) → String
  | [] => ""
  | [kv] => entryStr kv
  | kv :: rest => entryStr kv ++ ", " ++ dumpEntries rest

/-- `json.dumps(parameters, sort_keys=True)` with the default separators
`', '` and `': '`: keys sorted, each entry `"key": value`. -/
def jsonDumpsSortKeys (ps : Params) : String :=
  "\x7b" ++ dumpEntries (ps.insertionSort keyLe) ++ "\x7d"

/-- UTF-8 encoding of one code point (`str.encode()`). -/
def utf8Char (c : Char) : List Nat :=
  let n := c.toNat
  if n < 128 then [n]
  else if n < 2048 then [192 + n / 64, 128 + n % 64]
  else if n < 65536 then [224 + n / 4096, 128 + n / 64 % 64, 128 + n % 64]
  else [240 + n / 262144, 128 + n / 4096 % 64, 128 + n / 64 % 64, 128 + n % 64]

/-- UTF-8 bytes of a string (`cache_data.encode()`). -/
def strBytes (s : String) : List Nat :=
  s.data.foldr (fun c acc => utf8Char c ++ acc) []

/-! ### MD5 (`hashlib.md5`), RFC 1321, over byte lists -/

/-- Truncate to a 32-bit word. -/
def u32 (n : Nat) : Nat := n % 4294967296

/-- 32-bit complement of a word `x < 2^32`. -/
def unot (x : Nat) : Nat := 4294967295 ^^^ x

/-- 32-bit left rotation. -/
def rotl (x s : Nat) : Nat := u32 (x <<< s) ||| x >>> (32 - s)

/-- The 64 MD5 sine-table constants. -/
def md5K : List Nat :=
  [0xd76aa478, 0xe8c7b756, 0x242070db, 0xc1bdceee,
   0xf57c0faf, 0x4787c62a, 0xa8304613, 0xfd469501,
   0x698098d8, 0x8b44f7af, 0xffff5bb1, 0x895cd7be,
   0x6b901122, 0xfd987193, 0xa679438e, 0x49b40821,
   0xf61e2562, 0xc040b340, 0x265e5a51, 0xe9b6c7aa,
   0xd62f105d, 0x02441453, 0xd8a1e681, 0xe7d3fbc8,
   0x21e1cde6, 0xc33707d6, 0xf4d50d87, 0x455a14ed,
   0xa9e3e905, 0xfcefa3f8, 0x676f02d9, 0x8d2a4c8a,
   0xfffa3942, 0x8771f681, 0x6d9d6122, 0xfde5380c,
   0xa4beea44, 0x4bdecfa9, 0xf6bb4b60, 0xbebfbc70,
   0x289b7ec6, 0xeaa127fa, 0xd4ef3085, 0x04881d05,
   0xd9d4d039, 0xe6db99e5, 0x1fa27cf8, 0xc4ac5665,
   0xf4292244, 0x432aff97, 0xab9423a7, 0xfc93a039,
   0x655b59c3, 0x8f0ccc92, 0xffeff47d, 0x85845dd1,
   0x6fa87e4f, 0xfe2ce6e0, 0xa3014314, 0x4e0811a1,
   0xf7537e82, 0xbd3af235, 0x2ad7d2bb, 0xeb86d391]

/-- The 64 MD5 per-round left-rotation amounts. -/
def md5S : List Nat :=
  [7, 12, 17, 22, 7, 12, 17, 22, 7, 12, 17, 22, 7, 12, 17, 22,
   5, 9, 14, 20, 5, 9, 14, 20, 5, 9, 14, 20, 5, 9, 14, 20,
   4, 11, 16, 23, 4, 11, 16, 23, 4, 11, 16, 23, 4, 11, 16, 23,
   6, 10, 15, 21, 6, 10, 15, 21, 6, 10, 15, 21, 6, 10, 15, 21]

/-- MD5 padding: a `0x80` byte, zeros to 56 mod 64, then the bit length
as eight little-endian bytes. -/
def md5Pad (msg : List Nat) : List Nat :=
  msg ++ 128 :: List.replicate ((119 - msg.length % 64) % 64) 0 ++
    (List.range 8).map fun i => msg.length * 8 / 256 ^ i % 256

/-- Little-endian 32-bit word `j` of a 64-byte block. -/
def md5Word (block : List Nat) (j : Nat) : Nat :=
  block.getD (4 * j) 0 + 256 * block.getD (4 * j + 1) 0 +
    65536 * block.getD (4 * j + 2) 0 + 16777216 * block.getD (4 * j + 3) 0

/-- One of the 64 MD5 rounds on state `(a, b, c, d)`. -/
def md5Round (block : List Nat) (st : Nat × Nat × Nat × Nat) (i : Nat) :
    Nat × Nat × Nat × Nat :=
  let (a, b, c, d) := st
  let f :=
    if i < 16 then b &&& c ||| unot b &&& d
    else if i < 32 then d &&& b ||| unot d &&& c
    else if i < 48 then b ^^^ c ^^^ d
    else c ^^^ (b ||| unot d)
  let g :=
    if i < 16 then i
    else if i < 32 then (5 * i + 1) % 16
    else if i < 48 then (3 * i + 5) % 16
    else 7 * i % 16
  let tmp := u32 (f + a + md5K.getD i 0 + md5Word block g)
  (d, u32 (b + rotl tmp (md5S.getD i 0)), b, c)

/-- Process one 64-byte block, adding the round output into the state. -/
def md5Block (st : Nat × Nat × Nat × Nat) (block : List Nat) :
    Nat × Nat × Nat × Nat :=
  let (a, b, c, d) := (List.range 64).foldl (md5Round block) st
  (u32 (st.1 + a), u32 (st.2.1 + b), u32 (st.2.2.1 + c), u32 (st.2.2.2 + d))

/-- Split a byte list into 64-byte chunks. -/
def chunks64 (l : List Nat) : List (List Nat) :=
  match l with
  | [] => []
  | x :: xs => (x :: xs).take 64 :: chunks64 (xs.drop 63)
termination_by l.length
decreasing_by simp [List.length_drop]; omega

/-- The 16 MD5 digest bytes of a message: the four state words, each
emitted as four little-endian bytes. -/
def md5Bytes (msg : List Nat) : List Nat :=
  let st := (chunks64 (md5Pad msg)).foldl md5Block
    (0x67452301, 0xefcdab89, 0x98badcfe, 0x10325476)
  [st.1 % 256, st.1 / 256 % 256, st.1 / 65536 % 256, st.1 / 16777216 % 256,
   st.2.1 % 256, st.2.1 / 256 % 256, st.2.1 / 65536 % 256, st.2.1 / 16777216 % 256,
   st.2.2.1 % 256, st.2.2.1 / 256 % 256, st.2.2.1 / 65536 % 256, st.2.2.1 / 16777216 % 256,
   st.2.2.2 % 256, st.2.2.2 / 256 % 256, st.2.2.2 / 65536 % 256, st.2.2.2 / 16777216 % 256]

/-- `hashlib.md5(data).hexdigest()`: the digest as 32 lower-case hex digits. -/
def md5Hex (msg : List Nat) : String :=
  String.join ((md5Bytes msg).map fun b => String.mk [hexDigitChar (b / 16), hexDigitChar (b % 16)])

/-- The local `cache_data` string of `_get_cache_key`:
`f"{method}_{json.dumps(parameters, sort_keys=True)}"`. -/
def cache_data (method : String) (parameters : Params) : String :=
  method ++ "_" ++ jsonDumpsSortKeys parameters

/-- `_get_cache_key`: the md5 hex digest of the UTF-8 encoded
`cache_data` string. -/
def get_cache_key (method : String) (parameters : Params) : String :=
  md5Hex (strBytes (cache_data method parameters))

/-! ### Cache store -/

/-- The normalized response data: a Python `dict` from element names to
text values, in insertion order. -/
abbrev ResponseData := List (String × String)

/-- One cache slot: `{'data': ..., 'timestamp': ...}`. Timestamps
(`time.time()`) are modelled as integers. -/
structure CacheEntry where
  data : ResponseData
  timestamp : Int
deriving DecidableEq, Repr

/-- `self.cache`: a `dict` from fingerprint strings to entries. -/
abbrev Cache := List (String × CacheEntry)

/-- `dict` lookup on the cache. -/
def lookupEntry (cache : Cache) (k : String) : Option CacheEntry :=
  cache.lookup k

/-- `dict` assignment `self.cache[k] = e`: overwrite in place if the key
is present, otherwise append. -/
def dictInsert (cache : Cache) (k : String) (e : CacheEntry) : Cache :=
  if cache.any (fun kv => kv.1 == k) then
    cache.map fun kv => if kv.1 == k then (k, e) else kv
  else
    cache ++ [(k, e)]

/-- `_is_cache_valid`: false when the key is absent, otherwise
`time.time() - cached_time < self.cache_ttl` with `now` standing for
`time.time()` and `ttl` for `self.cache_ttl`. -/
def is_cache_valid (cache : Cache) (cache_key : String) (now ttl : Int) : Bool :=
  match lookupEntry cache cache_key with
  | none => false
  | some entry => now - entry.timestamp < ttl

/-! ### Response normalizer (`_parse_soap_response`)

The namespace-stripping string replacements and the standard library's
`ET.fromstring` are modelled by handing the function the outcome of that
parse: `none` when `ET.fromstring` raises `ET.ParseError` on the cleaned
text, `some root` the resulting element tree otherwise. -/

/-- An XML element: tag, optional text, children in document order. -/
inductive XmlNode where
  | elem (tag : String) (text : Option String) (children : List XmlNode)

mutual

/-- `elem.iter()`: the element itself followed by all descendants in
document (preorder) sequence. -/
def iterNode : XmlNode → List XmlNode
  | .elem t x cs => .elem t x cs :: iterNodes cs

/-- `iter()` over a list of sibling elements. -/
def iterNodes : List XmlNode → List XmlNode
  | [] => []
  | c :: cs => iterNode c ++ iterNodes cs

end

mutual

/-- First element tagged `Body` among a node and its descendants,
document order. -/
def findBodyNode : XmlNode → Option XmlNode
  | .elem t x cs => if t = "Body" then some (.elem t x cs) else findBodyList cs

/-- First `Body` element under any of the given siblings. -/
def findBodyList : List XmlNode → Option XmlNode
  | [] => none
  | c :: cs =>
    match findBodyNode c with
    | some b => some b
    | none => findBodyList cs

end

/-- `root.find('.//Body')`: first `Body` strictly below the root. -/
def findBody (root : XmlNode) : Option XmlNode :=
  match root with
  | .elem _ _ cs => findBodyList cs

/-- `dict` assignment `d[k] = v` on response data: overwrite in place,
else append. -/
def dictSet (d : ResponseData) (k v : String) : ResponseData :=
  if d.any (fun kv => kv.1 == k) then
    d.map fun kv => if kv.1 == k then (k, v) else kv
  else
    d ++ [(k, v)]

/-- The walk over `body.iter()`: for every element with truthy text whose
tag is neither `Body` nor `Envelope`, record `tag -> text`. -/
def collectBodyData (body : XmlNode) : ResponseData :=
  (iterNode body).foldl
    (fun acc e =>
      match e with
      | .elem tag text _ =>
        match text with
        | some t => if t ≠ "" ∧ tag ≠ "Body" ∧ tag ≠ "Envelope" then dictSet acc tag t else acc
        | none => acc)
    []

/-- `_parse_soap_response`: on `ET.ParseError` return
`{'error': 'Failed to parse response'}`; with no `Body` element return
`{}`; otherwise flatten the body's elements' text. -/
def parse_soap_response (parsed : Option XmlNode) : ResponseData :=
  match parsed with
  | none => [("error", "Failed to parse response")]
  | some root =>
    match findBody root with
    | some body => collectBodyData body
    | none => []

/-! ### Envelope builder (`_create_soap_envelope`) -/

/-- The configuration fields the envelope interpolates
(`self.username`, `self.password` and the four identifying IDs). -/
structure ServiceConfig where
  username : String
  password : String
  source_id : String
  company_id : String
  store_id : String
  service_location_id : String

/-- Python `str()` of a parameter value as interpolated by the f-string. -/
def pyStr : JVal → String
  | .jstr s => s
  | .jnum n => toString n
  | .jnull => "None"

/-- The f-string prefix of the envelope up to and including the
`ServiceLocationID` line. -/
def envelopeHeader (cfg : ServiceConfig) (method : String) : String :=
  "<?xml version=\"1.0\" encoding=\"utf-8\"?>\n" ++
  "<soap:Envelope xmlns:xsi=\"http://www.w3.org/2001/XMLSchema-instance\" \n" ++
  "               xmlns:xsd=\"http://www.w3.org/2001/XMLSchema\" \n" ++
  "               xmlns:soap=\"http://schemas.xmlsoap.org/soap/envelope/\">\n" ++
  "  <soap:Header>\n" ++
  "    <AuthenticationSoapHeader xmlns=\"http://tempuri.org/\">\n" ++
  "      <UserName>" ++ cfg.username ++ "</UserName>\n" ++
  "      <Password>" ++ cfg.password ++ "</Password>\n" ++
  "    </AuthenticationSoapHeader>\n" ++
  "  </soap:Header>\n" ++
  "  <soap:Body>\n" ++
  "    <" ++ method ++ " xmlns=\"http://tempuri.org/\">\n" ++
  "      <SourceID>" ++ cfg.source_id ++ "</SourceID>\n" ++
  "      <CompanyID>" ++ cfg.company_id ++ "</CompanyID>\n" ++
  "      <StoreID>" ++ cfg.store_id ++ "</StoreID>\n" ++
  "      <ServiceLocationID>" ++ cfg.service_location_id ++ "</ServiceLocationID>"

/-- One appended parameter line `f'      <{key}>{value}</{key}>\n'`. -/
def paramField (kv : String × JVal) : String :=
  "      <" ++ kv.1 ++ ">" ++ pyStr kv.2 ++ "</" ++ kv.1 ++ ">\n"

/-- The f-string suffix closing the method element, body and envelope. -/
def envelopeFooter (method : String) : String :=
  "    </" ++ method ++ ">\n  </soap:Body>\n</soap:Envelope>"

/-- `_create_soap_envelope`: header, then the loop appending each
parameter line when `value is not None`, then the footer. -/
def create_soap_envelope (cfg : ServiceConfig) (method : String) (parameters : Params) : String :=
  (parameters.foldl
    (fun env kv => if kv.2 ≠ JVal.jnull then env ++ paramField kv else env)
    (envelopeHeader cfg method)) ++ envelopeFooter method

/-! ### Request client (`_make_api_request`) and `clear_cache` -/

/-- Outcome of the transport attempt (`self.session.post` followed by
`response.raise_for_status()`):
* `success parsedBody` — HTTP success, with `parsedBody` the modelled
  XML-parse outcome of `response.text` fed to `_parse_soap_response`;
* `requestError msg` — a `requests.RequestException` (network failure,
  timeout, or non-success status raised by `raise_for_status`), with
  `msg` its `str()`;
* `unexpectedError msg` — any other exception raised inside the `try`. -/
inductive TransportResult where
  | success (parsedBody : Option XmlNode)
  | requestError (msg : String)
  | unexpectedError (msg : String)

/-- `self.cache[cache_key]['data']` (total here; only reached under a
validity check that guarantees the key is present). -/
def cachedData (cache : Cache) (k : String) : ResponseData :=
  ((lookupEntry cache k).getD ⟨[], 0⟩).data

/-- Result of one `_make_api_request` call: the returned mapping, the
cache afterwards, and whether the transport (HTTP POST) was invoked. -/
structure ApiCallResult where
  result : ResponseData
  cache : Cache
  transportCalled : Bool

/-- `_make_api_request`: return cached data on a valid cache hit;
otherwise perform the transport call, convert failures into `'error'`
mappings, and cache the parsed data of successful responses with the
current timestamp. (`ttl` is `self.cache_ttl`, `now` is `time.time()`;
the `parameters = None` default is the empty mapping.) -/
def make_api_request (ttl : Int) (cache : Cache) (now : Int) (method : String)
    (parameters : Params) (tr : TransportResult) : ApiCallResult :=
  let cache_key := get_cache_key method parameters
  if is_cache_valid cache cache_key now ttl then
    ⟨cachedData cache cache_key, cache, false⟩
  else
    match tr with
    | .success parsedBody =>
      let parsed_data := parse_soap_response parsedBody
      ⟨parsed_data, dictInsert cache cache_key ⟨parsed_data, now⟩, true⟩
    | .requestError msg => ⟨[("error", "API request failed: " ++ msg)], cache, true⟩
    | .unexpectedError msg => ⟨[("error", "Unexpected error: " ++ msg)], cache, true⟩

/-- The dictionary `clear_cache` returns (its `timestamp` field is the
wall-clock ISO string, passed in here). -/
structure ClearCacheResult where
  status : String
  message : String
  timestamp : String

/-- `clear_cache`: record the prior size, empty the cache, report. -/
def clear_cache (cache : Cache) (nowIso : String) : ClearCacheResult × Cache :=
  (⟨"success", "Cleared " ++ toString cache.length ++ " cached items", nowIso⟩, [])

/-! ### Helper lemmas -/

/-- Strict key order on parameter pairs. -/
def keyLt (a b : String × JVal) : Prop := a.1 < b.1

instance : IsAntisymm (String × JVal) keyLt :=
  ⟨fun _ _ h h' => absurd h' (lt_asymm h)⟩

/-- A key-sorted list whose keys are pairwise distinct is strictly
key-sorted. -/
theorem pairwise_keyLt {l : List (String × JVal)}
    (hs : l.Pairwise keyLe) (hn : (l.map Prod.fst).Nodup) : l.Pairwise keyLt :=
  (hs.and (List.pairwise_map.mp hn)).imp fun h => lt_of_le_of_ne h.1 h.2

/-- Sorting by key is invariant under permutation of a duplicate-free
parameter list: the serialization order is determined by the pair set. -/
theorem insertionSort_eq_of_perm (P1 P2 : Params) (hperm : P1.Perm P2)
    (hnd : (P1.map Prod.fst).Nodup) :
    P1.insertionSort keyLe = P2.insertionSort keyLe := by
  have h1 := List.perm_insertionSort keyLe P1
  have h2 := List.perm_insertionSort keyLe P2
  have hp : (P1.insertionSort keyLe).Perm (P2.insertionSort keyLe) :=
    h1.trans (hperm.trans h2.symm)
  have hs1 : (P1.insertionSort keyLe).Pairwise keyLe := List.sorted_insertionSort keyLe P1
  have hs2 : (P2.insertionSort keyLe).Pairwise keyLe := List.sorted_insertionSort keyLe P2
  have hn1 : ((P1.insertionSort keyLe).map Prod.fst).Nodup :=
    ((h1.map Prod.fst).nodup_iff).mpr hnd
  have hn2 : ((P2.insertionSort keyLe).map Prod.fst).Nodup :=
    ((h2.map Prod.fst).nodup_iff).mpr (((hperm.map Prod.fst).nodup_iff).mp hnd)
  exact List.eq_of_perm_of_sorted hp (pairwise_keyLt hs1 hn1) (pairwise_keyLt hs2 hn2)

/-- Concatenation of a list of strings, in order. -/
def concatAll : List String → String
  | [] => ""
  | s :: t => s ++ concatAll t

/-- The parameter loop of the envelope builder appends exactly the
rendered non-null parameters, in order, to the accumulator. -/
theorem foldl_paramField (l : Params) (a : String) :
    l.foldl (fun env kv => if kv.2 ≠ JVal.jnull then env ++ paramField kv else env) a
      = a ++ concatAll ((l.filter (fun kv => kv.2 ≠ JVal.jnull)).map paramField) := by
  induction l generalizing a with
  | nil => simp [concatAll]
  | cons kv t ih =>
    rw [List.foldl_cons]
    by_cases h : kv.2 = JVal.jnull
    · rw [if_neg (by simp [h]), ih, List.filter_cons_of_neg (by simp [h])]
    · rw [if_pos h, ih, List.filter_cons_of_pos (by simp [h]), List.map_cons, concatAll,
        String.append_assoc]

/-- Overwriting the matching pair of a cache that holds the key, then
looking the key up, yields the new entry. -/
theorem lookup_map_overwrite (t : Cache) (k : String) (e : CacheEntry) :
    t.any (fun kv => kv.1 == k) = true →
    List.lookup k (t.map fun kv => if kv.1 == k then (k, e) else kv) = some e := by
  intro h
  induction t with
  | nil => simp at h
  | cons kv t ih =>
    rw [List.map_cons]
    by_cases hk : kv.1 = k
    · rw [if_pos (by simpa using hk)]
      simp [List.lookup]
    · rw [if_neg (by simpa using hk)]
      have hne : (k == kv.1) = false := by
        simp only [beq_eq_false_iff_ne]
        exact fun hh => hk hh.symm
      simp only [List.lookup, hne]
      refine ih ?_
      simpa [List.any_cons, (by simpa using hk : (kv.1 == k) = false)] using h

/-- Appending a fresh pair to a cache that lacks the key, then looking
the key up, yields the new entry. -/
theorem lookup_append_new (t : Cache) (k : String) (e : CacheEntry) :
    t.any (fun kv => kv.1 == k) = false →
    List.lookup k (t ++ [(k, e)]) = some e := by
  intro h
  induction t with
  | nil => simp [List.lookup]
  | cons kv t ih =>
    rw [List.any_cons, Bool.or_eq_false_iff] at h
    rw [List.cons_append]
    have hne : (k == kv.1) = false := by
      simp only [beq_eq_false_iff_ne]
      intro hh
      rw [beq_eq_false_iff_ne] at h
      exact h.1 hh.symm
    simp only [List.lookup, hne]
    exact ih h.2

/-- Looking up a key right after `dict` assignment yields the assigned
entry. -/
theorem lookup_dictInsert (cache : Cache) (k : String) (e : CacheEntry) :
    lookupEntry (dictInsert cache k e) k = some e := by
  unfold lookupEntry dictInsert
  by_cases hany : cache.any (fun kv => kv.1 == k) = true
  · rw [if_pos hany]
    exact lookup_map_overwrite cache k e hany
  · rw [if_neg hany]
    exact lookup_append_new cache k e (by simpa only [Bool.not_eq_true] using hany)

/-! ### Unique decodability of the serialized form

These lemmas show the serialization `cache_data` is injective in the
method name (for fixed parameters) and in the parameter mapping up to
permutation — the hash pre-images of distinct requests differ. -/

/-- Characters with equal code points are equal. -/
theorem char_eq_of_toNat {c d : Char} (h : c.toNat = d.toNat) : c = d :=
  Char.ext (UInt32.toNat.inj h)

/-- `hexDigitChar` is injective below 16. -/
theorem hexDigitChar_inj :
    ∀ a, a < 16 → ∀ b, b < 16 → hexDigitChar a = hexDigitChar b → a = b := by decide

/-- `hex4Chars` is injective below 2^16. -/
theorem hex4Chars_inj {n1 n2 : Nat} (h1 : n1 < 65536) (h2 : n2 < 65536)
    (h : hex4Chars n1 = hex4Chars n2) : n1 = n2 := by
  simp only [hex4Chars, List.cons.injEq, and_true] at h
  obtain ⟨e1, e2, e3, e4⟩ := h
  have d1 := hexDigitChar_inj _ (Nat.mod_lt _ (by omega)) _ (Nat.mod_lt _ (by omega)) e1
  have d2 := hexDigitChar_inj _ (Nat.mod_lt _ (by omega)) _ (Nat.mod_lt _ (by omega)) e2
  have d3 := hexDigitChar_inj _ (Nat.mod_lt _ (by omega)) _ (Nat.mod_lt _ (by omega)) e3
  have d4 := hexDigitChar_inj _ (Nat.mod_lt _ (by omega)) _ (Nat.mod_lt _ (by omega)) e4
  omega

/-- Decoder for the two-character JSON escapes: the character following
the backslash determines the escaped character. -/
def escKey (k : Char) : Option Char :=
  if k = '"' then some '"'
  else if k = '\\' then some '\\'
  else if k = 'n' then some '\n'
  else if k = 'r' then some '\r'
  else if k = 't' then some '\t'
  else if k = 'b' then some (Char.ofNat 8)
  else if k = 'f' then some (Char.ofNat 12)
  else none

/-- The escape of any character takes one of four shapes: a safe literal
character, a two-character escape, one `\uXXXX` unit (whose value is
never in the surrogate range, by validity of scalar values), or a
surrogate pair (whose leading unit is always in the high-surrogate
range). -/
theorem jsonEscapeChar_shapes (c : Char) :
    ((jsonEscapeChar c).data = [c] ∧ 32 ≤ c.toNat ∧ c.toNat < 127 ∧ c ≠ '"' ∧ c ≠ '\\')
    ∨ (∃ k, (jsonEscapeChar c).data = ['\\', k] ∧ k ≠ 'u' ∧ escKey k = some c)
    ∨ ((jsonEscapeChar c).data = '\\' :: 'u' :: hex4Chars c.toNat ∧ c.toNat < 65536
        ∧ (c.toNat < 55296 ∨ 57343 < c.toNat))
    ∨ ((jsonEscapeChar c).data
          = '\\' :: 'u' :: (hex4Chars (55296 + (c.toNat - 65536) / 1024)
            ++ '\\' :: 'u' :: hex4Chars (56320 + (c.toNat - 65536) % 1024))
        ∧ 65536 ≤ c.toNat ∧ c.toNat < 1114112) := by
  have hval : c.toNat < 55296 ∨ (57343 < c.toNat ∧ c.toNat < 1114112) := by
    have hv := c.valid
    rcases hv with h | h
    · exact Or.inl h
    · exact Or.inr h
  by_cases h1 : c = '"'
  · have hd : jsonEscapeChar c = "\\\"" := by unfold jsonEscapeChar; rw [if_pos h1]
    exact Or.inr (Or.inl ⟨'"', by rw [hd], by decide, by rw [h1]; rfl⟩)
  by_cases h2 : c = '\\'
  · have hd : jsonEscapeChar c = "\\\\" := by
      unfold jsonEscapeChar; rw [if_neg h1, if_pos h2]
    exact Or.inr (Or.inl ⟨'\\', by rw [hd], by decide, by rw [h2]; rfl⟩)
  by_cases h3 : c = '\n'
  · have hd : jsonEscapeChar c = "\\n" := by
      unfold jsonEscapeChar; rw [if_neg h1, if_neg h2, if_pos h3]
    exact Or.inr (Or.inl ⟨'n', by rw [hd], by decide, by rw [h3]; rfl⟩)
  by_cases h4 : c = '\r'
  · have hd : jsonEscapeChar c = "\\r" := by
      unfold jsonEscapeChar; rw [if_neg h1, if_neg h2, if_neg h3, if_pos h4]
    exact Or.inr (Or.inl ⟨'r', by rw [hd], by decide, by rw [h4]; rfl⟩)
  by_cases h5 : c = '\t'
  · have hd : jsonEscapeChar c = "\\t" := by
      unfold jsonEscapeChar; rw [if_neg h1, if_neg h2, if_neg h3, if_neg h4, if_pos h5]
    exact Or.inr (Or.inl ⟨'t', by rw [hd], by decide, by rw [h5]; rfl⟩)
  by_cases h6 : c.toNat = 8
  · have hd : jsonEscapeChar c = "\\b" := by
      unfold jsonEscapeChar; rw [if_neg h1, if_neg h2, if_neg h3, if_neg h4, if_neg h5, if_pos h6]
    refine Or.inr (Or.inl ⟨'b', by rw [hd], by decide, ?_⟩)
    show some (Char.ofNat 8) = some c
    exact congrArg some (char_eq_of_toNat (by rw [h6]; decide))
  by_cases h7 : c.toNat = 12
  · have hd : jsonEscapeChar c = "\\f" := by
      unfold jsonEscapeChar
      rw [if_neg h1, if_neg h2, if_neg h3, if_neg h4, if_neg h5, if_neg h6, if_pos h7]
    refine Or.inr (Or.inl ⟨'f', by rw [hd], by decide, ?_⟩)
    show some (Char.ofNat 12) = some c
    exact congrArg some (char_eq_of_toNat (by rw [h7]; decide))
  by_cases h8 : c.toNat < 32
  · have hd : jsonEscapeChar c = "\\u" ++ hex4 c.toNat := by
      unfold jsonEscapeChar
      rw [if_neg h1, if_neg h2, if_neg h3, if_neg h4, if_neg h5, if_neg h6, if_neg h7,
        if_pos h8]
    refine Or.inr (Or.inr (Or.inl ⟨?_, by omega, by omega⟩))
    rw [hd, String.data_append]; rfl
  by_cases h9 : c.toNat < 127
  · have hd : jsonEscapeChar c = String.mk [c] := by
      unfold jsonEscapeChar
      rw [if_neg h1, if_neg h2, if_neg h3, if_neg h4, if_neg h5, if_neg h6, if_neg h7,
        if_neg h8, if_pos h9]
    exact Or.inl ⟨by rw [hd], by omega, h9, h1, h2⟩
  by_cases h10 : c.toNat < 65536
  · have hd : jsonEscapeChar c = "\\u" ++ hex4 c.toNat := by
      unfold jsonEscapeChar
      rw [if_neg h1, if_neg h2, if_neg h3, if_neg h4, if_neg h5, if_neg h6, if_neg h7,
        if_neg h8, if_neg h9, if_pos h10]
    refine Or.inr (Or.inr (Or.inl ⟨?_, h10, by omega⟩))
    rw [hd, String.data_append]; rfl
  · have hd : jsonEscapeChar c = "\\u" ++ hex4 (55296 + (c.toNat - 65536) / 1024) ++
        "\\u" ++ hex4 (56320 + (c.toNat - 65536) % 1024) := by
      unfold jsonEscapeChar
      rw [if_neg h1, if_neg h2, if_neg h3, if_neg h4, if_neg h5, if_neg h6, if_neg h7,
        if_neg h8, if_neg h9, if_neg h10]
    refine Or.inr (Or.inr (Or.inr ⟨?_, by omega, by omega⟩))
    rw [hd, String.data_append, String.data_append, String.data_append]
    simp [hex4]


/-- Length of a hex quadruple. -/
theorem hex4Chars_length (n : Nat) : (hex4Chars n).length = 4 := rfl

/-- One escape step decodes uniquely: if two escapes agree up to
arbitrary continuations, the escaped characters and the continuations
agree. -/
theorem esc_decode_step {c1 c2 : Char} {x y : List Char}
    (h : (jsonEscapeChar c1).data ++ x = (jsonEscapeChar c2).data ++ y) :
    c1 = c2 ∧ x = y := by
  rcases jsonEscapeChar_shapes c1 with ⟨d1, _, _, hq1, hb1⟩ | ⟨k1, d1, hu1, hk1⟩ |
      ⟨d1, hlt1, hr1⟩ | ⟨d1, hge1, hlt1⟩
  all_goals rcases jsonEscapeChar_shapes c2 with ⟨d2, _, _, hq2, hb2⟩ | ⟨k2, d2, hu2, hk2⟩ |
      ⟨d2, hlt2, hr2⟩ | ⟨d2, hge2, hlt2⟩
  all_goals rw [d1, d2] at h
  all_goals simp only [List.cons_append, List.singleton_append, List.nil_append,
    List.cons.injEq, List.append_assoc, true_and, and_true] at h
  -- safe / safe
  · exact ⟨h.1, h.2⟩
  -- safe vs escapes: the safe character is not a backslash
  · exact absurd h.1 hb1
  · exact absurd h.1 hb1
  · exact absurd h.1 hb1
  · exact absurd h.1.symm hb2
  -- two-character escapes
  · obtain ⟨hk, hxy⟩ := h
    rw [hk] at hk1
    exact ⟨Option.some.inj (hk1.symm.trans hk2), hxy⟩
  · exact absurd h.1 hu1
  · exact absurd h.1 hu1
  · exact absurd h.1.symm hb2
  · exact absurd h.1.symm hu2
  -- single hex units
  · obtain ⟨hh, ht⟩ := List.append_inj h (by rw [hex4Chars_length, hex4Chars_length])
    exact ⟨char_eq_of_toNat (hex4Chars_inj hlt1 hlt2 hh), ht⟩
  · obtain ⟨hh, _⟩ := List.append_inj h (by rw [hex4Chars_length, hex4Chars_length])
    have := hex4Chars_inj hlt1 (by omega) hh
    omega
  · exact absurd h.1.symm hb2
  · exact absurd h.1.symm hu2
  · obtain ⟨hh, _⟩ := List.append_inj h (by rw [hex4Chars_length, hex4Chars_length])
    have := hex4Chars_inj (by omega) hlt2 hh
    omega
  -- surrogate pairs
  · obtain ⟨hh, ht⟩ := List.append_inj h (by rw [hex4Chars_length, hex4Chars_length])
    simp only [List.cons_append, List.cons.injEq, true_and] at ht
    obtain ⟨hl, hxy⟩ := List.append_inj ht (by rw [hex4Chars_length, hex4Chars_length])
    have hhi := hex4Chars_inj (by omega) (by omega) hh
    have hlo := hex4Chars_inj (by omega) (by omega) hl
    exact ⟨char_eq_of_toNat (by omega), hxy⟩

/-- A quote never begins an escape. -/
theorem quote_ne_esc_head {c : Char} {r z : List Char}
    (h : '"' :: r = (jsonEscapeChar c).data ++ z) : False := by
  rcases jsonEscapeChar_shapes c with ⟨d, _, _, hq, _⟩ | ⟨k, d, _, _⟩ | ⟨d, _, _⟩ | ⟨d, _, _⟩
  all_goals rw [d] at h
  all_goals simp only [List.cons_append, List.singleton_append, List.cons.injEq] at h
  · exact hq h.1.symm
  · exact absurd h.1 (by decide)
  · exact absurd h.1 (by decide)
  · exact absurd h.1 (by decide)

/-- Data of the escape of an empty character list. -/
theorem escString_nil : (escString []).data = [] := rfl

/-- Data of the escape of a nonempty character list. -/
theorem escString_cons (c : Char) (t : List Char) :
    (escString (c :: t)).data = (jsonEscapeChar c).data ++ (escString t).data :=
  String.data_append _ _

/-- A full escaped string terminated by an unescaped quote decodes
uniquely. -/
theorem escString_decode : ∀ (l1 l2 r1 r2 : List Char),
    (escString l1).data ++ '"' :: r1 = (escString l2).data ++ '"' :: r2 →
    l1 = l2 ∧ r1 = r2 := by
  intro l1
  induction l1 with
  | nil =>
    intro l2 r1 r2 h
    cases l2 with
    | nil =>
      rw [escString_nil, List.nil_append, List.nil_append] at h
      exact ⟨rfl, (List.cons.injEq .. ▸ h).2⟩
    | cons c t =>
      rw [escString_nil, escString_cons, List.nil_append, List.append_assoc] at h
      exact absurd h quote_ne_esc_head
  | cons c1 t1 ih =>
    intro l2 r1 r2 h
    cases l2 with
    | nil =>
      rw [escString_nil, escString_cons, List.nil_append, List.append_assoc] at h
      exact absurd h.symm quote_ne_esc_head
    | cons c2 t2 =>
      rw [escString_cons, escString_cons, List.append_assoc, List.append_assoc] at h
      obtain ⟨hc, ht⟩ := esc_decode_step h
      obtain ⟨ht', hr⟩ := ih t2 r1 r2 ht
      exact ⟨by rw [hc, ht'], hr⟩

/-- Code point of a hex digit char below ten. -/
theorem hexDigitChar_toNat_lt10 : ∀ n, n < 10 → (hexDigitChar n).toNat = 48 + n := by decide

/-- Every character of a decimal rendering is a digit. -/
theorem natDigits_digits : ∀ n, ∀ ch ∈ natDigits n, 48 ≤ ch.toNat ∧ ch.toNat ≤ 57 := by
  intro n
  induction n using Nat.strong_induction_on with
  | _ n ih =>
    intro ch hch
    unfold natDigits at hch
    split at hch
    · next hlt =>
      simp only [List.mem_singleton] at hch
      subst hch
      rw [hexDigitChar_toNat_lt10 n hlt]
      omega
    · next hge =>
      rw [List.mem_append] at hch
      rcases hch with hch | hch
      · exact ih (n / 10) (Nat.div_lt_self (by omega) (by omega)) ch hch
      · simp only [List.mem_singleton] at hch
        subst hch
        rw [hexDigitChar_toNat_lt10 _ (Nat.mod_lt _ (by omega))]
        omega

/-- Decimal decoding of a digit string. -/
def natVal (l : List Char) : Nat :=
  l.foldl (fun a ch => 10 * a + (ch.toNat - 48)) 0

/-- Appending one digit multiplies the decoded value by ten. -/
theorem natVal_append_digit (l : List Char) (d : Char) :
    natVal (l ++ [d]) = 10 * natVal l + (d.toNat - 48) := by
  unfold natVal
  rw [List.foldl_append, List.foldl_cons, List.foldl_nil]

/-- Decoding inverts the decimal rendering. -/
theorem natVal_natDigits : ∀ n, natVal (natDigits n) = n := by
  intro n
  induction n using Nat.strong_induction_on with
  | _ n ih =>
    unfold natDigits
    split
    · next hlt =>
      show natVal [hexDigitChar n] = n
      unfold natVal
      rw [List.foldl_cons, List.foldl_nil, hexDigitChar_toNat_lt10 n hlt]
      omega
    · next hge =>
      rw [natVal_append_digit, ih (n / 10) (Nat.div_lt_self (by omega) (by omega)),
        hexDigitChar_toNat_lt10 _ (Nat.mod_lt _ (by omega))]
      omega

/-- Decimal renderings of distinct naturals differ. -/
theorem natDigits_inj {a b : Nat} (h : natDigits a = natDigits b) : a = b := by
  have ha := natVal_natDigits a
  rw [h, natVal_natDigits] at ha
  omega

/-- A decimal rendering is never empty. -/
theorem natDigits_ne_nil (n : Nat) : natDigits n ≠ [] := by
  unfold natDigits
  split
  · simp
  · simp

/-- Every character of an integer rendering is a minus sign or digit. -/
theorem intChars_chars :
    ∀ n : Int, ∀ ch ∈ intChars n, ch.toNat = 45 ∨ (48 ≤ ch.toNat ∧ ch.toNat ≤ 57) := by
  intro n ch hch
  unfold intChars at hch
  split at hch
  · rcases List.mem_cons.mp hch with hc | hc
    · subst hc; exact Or.inl (by decide)
    · exact Or.inr (natDigits_digits _ ch hc)
  · exact Or.inr (natDigits_digits _ ch hch)

/-- Integer renderings of distinct integers differ. -/
theorem intChars_inj {a b : Int} (h : intChars a = intChars b) : a = b := by
  unfold intChars at h
  split at h <;> split at h
  · next ha hb =>
    simp only [List.cons.injEq, true_and] at h
    have := natDigits_inj h
    omega
  · next ha hb =>
    exfalso
    have hm : '-' ∈ natDigits b.toNat := by rw [← h]; exact List.mem_cons_self _ _
    have := natDigits_digits _ _ hm
    have h45 : ('-').toNat = 45 := by decide
    omega
  · next ha hb =>
    exfalso
    have hm : '-' ∈ natDigits a.toNat := by rw [h]; exact List.mem_cons_self _ _
    have := natDigits_digits _ _ hm
    have h45 : ('-').toNat = 45 := by decide
    omega
  · next ha hb =>
    have := natDigits_inj h
    omega

/-- An integer rendering is never empty. -/
theorem intChars_ne_nil (n : Int) : intChars n ≠ [] := by
  unfold intChars
  split
  · simp
  · exact natDigits_ne_nil _

/-- The continuation after a serialized value always starts with an
item separator or the closing brace. -/
def SepHead (l : List Char) : Prop :=
  ∃ c r, l = c :: r ∧ (c = ',' ∨ c = '}')

/-- Two separator-free blocks followed by separator-headed continuations
decompose uniquely. -/
theorem append_decode_of_no_sep :
    ∀ (l1 l2 x y : List Char), SepHead x → SepHead y →
    (∀ c ∈ l1, c ≠ ',' ∧ c ≠ '}') → (∀ c ∈ l2, c ≠ ',' ∧ c ≠ '}') →
    l1 ++ x = l2 ++ y → l1 = l2 ∧ x = y := by
  intro l1
  induction l1 with
  | nil =>
    intro l2 x y hx hy h1 h2 h
    cases l2 with
    | nil => exact ⟨rfl, h⟩
    | cons c t =>
      obtain ⟨sc, sr, rfl, hsc⟩ := hx
      simp only [List.nil_append, List.cons_append, List.cons.injEq] at h
      have hc := h2 c (List.mem_cons_self c t)
      rcases hsc with rfl | rfl
      · exact absurd h.1.symm hc.1
      · exact absurd h.1.symm hc.2
  | cons c1 t1 ih =>
    intro l2 x y hx hy h1 h2 h
    cases l2 with
    | nil =>
      obtain ⟨sc, sr, rfl, hsc⟩ := hy
      simp only [List.nil_append, List.cons_append, List.cons.injEq] at h
      have hc := h1 c1 (List.mem_cons_self c1 t1)
      rcases hsc with rfl | rfl
      · exact absurd h.1 hc.1
      · exact absurd h.1 hc.2
    | cons c2 t2 =>
      simp only [List.cons_append, List.cons.injEq] at h
      obtain ⟨ht, hxy⟩ := ih t2 x y hx hy (fun c hc => h1 c (List.mem_cons_of_mem _ hc))
        (fun c hc => h2 c (List.mem_cons_of_mem _ hc)) h.2
      exact ⟨by rw [h.1, ht], hxy⟩

/-- Data of a quoted JSON string literal. -/
theorem jsonQuote_data (s : String) :
    (jsonQuote s).data = '"' :: ((escString s.data).data ++ ['"']) := by
  unfold jsonQuote
  rw [String.data_append, String.data_append]
  rfl

/-- Strings with equal character data are equal. -/
theorem string_data_ext {s t : String} (h : s.data = t.data) : s = t := by
  cases s
  cases t
  simp only at h
  rw [h]

/-- A quoted JSON string literal decodes uniquely before any
continuation. -/
theorem jsonQuote_decode {s1 s2 : String} {x y : List Char}
    (h : (jsonQuote s1).data ++ x = (jsonQuote s2).data ++ y) :
    s1 = s2 ∧ x = y := by
  rw [jsonQuote_data, jsonQuote_data] at h
  simp only [List.cons_append, List.append_assoc, List.singleton_append,
    List.cons.injEq, true_and] at h
  obtain ⟨hd, hr⟩ := escString_decode s1.data s2.data x y h
  exact ⟨string_data_ext hd, hr⟩

/-- Data of a string-valued serialized scalar. -/
theorem jsonDumpVal_jstr_data (s : String) :
    (jsonDumpVal (.jstr s)).data = '"' :: ((escString s.data).data ++ ['"']) :=
  jsonQuote_data s

/-- Data of a number-valued serialized scalar. -/
theorem jsonDumpVal_jnum_data (n : Int) : (jsonDumpVal (.jnum n)).data = intChars n := rfl

/-- Data of the null serialized scalar. -/
theorem jsonDumpVal_jnull_data : (jsonDumpVal .jnull).data = ['n', 'u', 'l', 'l'] := rfl

/-- An integer rendering starts with a minus sign or a digit. -/
theorem intChars_head (n : Int) :
    ∃ c t, intChars n = c :: t ∧ (c.toNat = 45 ∨ (48 ≤ c.toNat ∧ c.toNat ≤ 57)) := by
  cases hn : intChars n with
  | nil => exact absurd hn (intChars_ne_nil n)
  | cons c t =>
    refine ⟨c, t, rfl, ?_⟩
    exact intChars_chars n c (by rw [hn]; exact List.mem_cons_self _ _)

/-- An integer rendering contains no separator characters. -/
theorem intChars_no_sep (n : Int) : ∀ c ∈ intChars n, c ≠ ',' ∧ c ≠ '}' := by
  intro c hc
  have hcl := intChars_chars n c hc
  constructor
  · intro hEq
    subst hEq
    revert hcl
    decide
  · intro hEq
    subst hEq
    revert hcl
    decide

/-- A serialized scalar decodes uniquely before a separator-headed
continuation. -/
theorem jsonDumpVal_decode {v1 v2 : JVal} {x y : List Char}
    (hx : SepHead x) (hy : SepHead y)
    (h : (jsonDumpVal v1).data ++ x = (jsonDumpVal v2).data ++ y) :
    v1 = v2 ∧ x = y := by
  cases v1 with
  | jstr s1 =>
    cases v2 with
    | jstr s2 =>
      obtain ⟨hs, hxy⟩ := jsonQuote_decode h
      exact ⟨by rw [hs], hxy⟩
    | jnum n2 =>
      exfalso
      rw [jsonDumpVal_jstr_data, jsonDumpVal_jnum_data] at h
      obtain ⟨c, t, hct, hcl⟩ := intChars_head n2
      rw [hct] at h
      simp only [List.cons_append, List.cons.injEq] at h
      revert hcl
      rw [← h.1]
      decide
    | jnull =>
      exfalso
      rw [jsonDumpVal_jstr_data, jsonDumpVal_jnull_data] at h
      simp only [List.cons_append, List.cons.injEq] at h
      exact absurd h.1 (by decide)
  | jnum n1 =>
    cases v2 with
    | jstr s2 =>
      exfalso
      rw [jsonDumpVal_jnum_data, jsonDumpVal_jstr_data] at h
      obtain ⟨c, t, hct, hcl⟩ := intChars_head n1
      rw [hct] at h
      simp only [List.cons_append, List.cons.injEq] at h
      revert hcl
      rw [h.1]
      decide
    | jnum n2 =>
      rw [jsonDumpVal_jnum_data, jsonDumpVal_jnum_data] at h
      obtain ⟨hn, hxy⟩ := append_decode_of_no_sep _ _ x y hx hy
        (intChars_no_sep n1) (intChars_no_sep n2) h
      exact ⟨by rw [intChars_inj hn], hxy⟩
    | jnull =>
      exfalso
      rw [jsonDumpVal_jnum_data, jsonDumpVal_jnull_data] at h
      obtain ⟨c, t, hct, hcl⟩ := intChars_head n1
      rw [hct] at h
      simp only [List.cons_append, List.cons.injEq] at h
      revert hcl
      rw [h.1]
      decide
  | jnull =>
    cases v2 with
    | jstr s2 =>
      exfalso
      rw [jsonDumpVal_jnull_data, jsonDumpVal_jstr_data] at h
      simp only [List.cons_append, List.cons.injEq] at h
      exact absurd h.1 (by decide)
    | jnum n2 =>
      exfalso
      rw [jsonDumpVal_jnull_data, jsonDumpVal_jnum_data] at h
      obtain ⟨c, t, hct, hcl⟩ := intChars_head n2
      rw [hct] at h
      simp only [List.cons_append, List.cons.injEq] at h
      revert hcl
      rw [← h.1]
      decide
    | jnull =>
      rw [jsonDumpVal_jnull_data] at h
      simp only [List.cons_append, List.cons.injEq, true_and] at h
      exact ⟨rfl, h⟩

/-- Data of a serialized object entry. -/
theorem entryStr_data (kv : String × JVal) :
    (entryStr kv).data = (jsonQuote kv.1).data ++ ':' :: ' ' :: (jsonDumpVal kv.2).data := by
  unfold entryStr
  simp only [String.data_append, List.append_assoc,
    show (": " : String).data = [':', ' '] from rfl, List.cons_append, List.nil_append]

/-- A serialized entry starts with a quote. -/
theorem entryStr_data_head (kv : String × JVal) :
    ∃ rest, (entryStr kv).data = '"' :: rest := by
  rw [entryStr_data, jsonQuote_data]
  exact ⟨_, rfl⟩

/-- A serialized object entry decodes uniquely before a separator-headed
continuation. -/
theorem entryStr_decode {kv1 kv2 : String × JVal} {x y : List Char}
    (hx : SepHead x) (hy : SepHead y)
    (h : (entryStr kv1).data ++ x = (entryStr kv2).data ++ y) :
    kv1 = kv2 ∧ x = y := by
  rw [entryStr_data, entryStr_data, List.append_assoc, List.append_assoc] at h
  obtain ⟨hk, hrest⟩ := jsonQuote_decode h
  simp only [List.cons_append, List.cons.injEq, true_and] at hrest
  obtain ⟨hv, hxy⟩ := jsonDumpVal_decode hx hy hrest
  refine ⟨?_, hxy⟩
  cases kv1
  cases kv2
  rw [Prod.mk.injEq]
  exact ⟨hk, hv⟩

/-- Data of the serialization of an empty entry list. -/
theorem dumpEntries_nil_data : (dumpEntries []).data = [] := rfl

/-- Data of the serialization of one entry. -/
theorem dumpEntries_single_data (kv : String × JVal) :
    (dumpEntries [kv]).data = (entryStr kv).data := rfl

/-- Data of the serialization of two or more entries. -/
theorem dumpEntries_cons_data (kv kv' : String × JVal) (t : List (String × JVal)) :
    (dumpEntries (kv :: kv' :: t)).data
      = (entryStr kv).data ++ ',' :: ' ' :: (dumpEntries (kv' :: t)).data := by
  show ((entryStr kv ++ ", ") ++ dumpEntries (kv' :: t)).data = _
  simp only [String.data_append, List.append_assoc,
    show (", " : String).data = [',', ' '] from rfl, List.cons_append, List.nil_append]

/-- A nonempty serialized entry list starts with a quote. -/
theorem dumpEntries_cons_head (kv : String × JVal) (t : List (String × JVal)) :
    ∃ rest, (dumpEntries (kv :: t)).data = '"' :: rest := by
  cases t with
  | nil =>
    rw [dumpEntries_single_data]
    exact entryStr_data_head kv
  | cons kv2 t2 =>
    rw [dumpEntries_cons_data]
    obtain ⟨rest, hrest⟩ := entryStr_data_head kv
    rw [hrest]
    exact ⟨_, rfl⟩

/-- A serialized entry list terminated by the closing brace decodes
uniquely. -/
theorem dumpEntries_decode :
    ∀ (l1 l2 : List (String × JVal)) (x y : List Char),
    (dumpEntries l1).data ++ '}' :: x = (dumpEntries l2).data ++ '}' :: y →
    l1 = l2 ∧ x = y := by
  intro l1
  induction l1 with
  | nil =>
    intro l2 x y h
    cases l2 with
    | nil =>
      rw [dumpEntries_nil_data] at h
      simp only [List.nil_append, List.cons.injEq, true_and] at h
      exact ⟨rfl, h⟩
    | cons kv2 t2 =>
      exfalso
      rw [dumpEntries_nil_data, List.nil_append] at h
      obtain ⟨rest, hrest⟩ := dumpEntries_cons_head kv2 t2
      rw [hrest] at h
      simp only [List.cons_append, List.cons.injEq] at h
      exact absurd h.1 (by decide)
  | cons kv1 t1 ih =>
    intro l2 x y h
    cases l2 with
    | nil =>
      exfalso
      rw [dumpEntries_nil_data, List.nil_append] at h
      obtain ⟨rest, hrest⟩ := dumpEntries_cons_head kv1 t1
      rw [hrest] at h
      simp only [List.cons_append, List.cons.injEq] at h
      exact absurd h.1.symm (by decide)
    | cons kv2 t2 =>
      cases t1 with
      | nil =>
        cases t2 with
        | nil =>
          rw [dumpEntries_single_data, dumpEntries_single_data] at h
          obtain ⟨hkv, hxy⟩ :=
            entryStr_decode ⟨'}', x, rfl, Or.inr rfl⟩ ⟨'}', y, rfl, Or.inr rfl⟩ h
          simp only [List.cons.injEq, true_and] at hxy
          exact ⟨by rw [hkv], hxy⟩
        | cons kv3 t3 =>
          exfalso
          rw [dumpEntries_single_data, dumpEntries_cons_data, List.append_assoc] at h
          simp only [List.cons_append] at h
          obtain ⟨hkv, hxy⟩ :=
            entryStr_decode ⟨'}', x, rfl, Or.inr rfl⟩ ⟨',', _, rfl, Or.inl rfl⟩ h
          simp only [List.cons.injEq] at hxy
          exact absurd hxy.1 (by decide)
      | cons kv1b t1b =>
        cases t2 with
        | nil =>
          exfalso
          rw [dumpEntries_cons_data, dumpEntries_single_data, List.append_assoc] at h
          simp only [List.cons_append] at h
          obtain ⟨hkv, hxy⟩ :=
            entryStr_decode ⟨',', _, rfl, Or.inl rfl⟩ ⟨'}', y, rfl, Or.inr rfl⟩ h
          simp only [List.cons.injEq] at hxy
          exact absurd hxy.1 (by decide)
        | cons kv2b t2b =>
          rw [dumpEntries_cons_data, dumpEntries_cons_data, List.append_assoc,
            List.append_assoc] at h
          simp only [List.cons_append] at h
          obtain ⟨hkv, hxy⟩ :=
            entryStr_decode ⟨',', _, rfl, Or.inl rfl⟩ ⟨',', _, rfl, Or.inl rfl⟩ h
          simp only [List.cons.injEq, true_and] at hxy
          obtain ⟨ht, hxy2⟩ := ih (kv2b :: t2b) x y hxy
          exact ⟨by rw [hkv, ht], hxy2⟩

/-- Equal serializations come from parameter lists with equal sorted
entry lists: the serializer is injective up to key order. -/
theorem jsonDumpsSortKeys_inj {P1 P2 : Params}
    (h : jsonDumpsSortKeys P1 = jsonDumpsSortKeys P2) :
    P1.insertionSort keyLe = P2.insertionSort keyLe := by
  have hd := congrArg String.data h
  unfold jsonDumpsSortKeys at hd
  simp only [String.data_append, List.append_assoc] at hd
  simp only [show ("\x7b" : String).data = ['{'] from rfl,
    show ("\x7d" : String).data = ['}'] from rfl,
    List.singleton_append, List.cons.injEq, true_and] at hd
  exact (dumpEntries_decode _ _ [] [] hd).1

/-! ### Finiteness of the digest space -/

/-- Little-endian byte-sequence decoding. -/
def bytesToNat : List Nat → Nat
  | [] => 0
  | b :: t => b + 256 * bytesToNat t

/-- A byte sequence decodes below `256 ^ length`. -/
theorem bytesToNat_lt : ∀ l : List Nat, (∀ x ∈ l, x < 256) → bytesToNat l < 256 ^ l.length := by
  intro l
  induction l with
  | nil =>
    intro _
    simp [bytesToNat]
  | cons b t ih =>
    intro h
    have hb := h b (List.mem_cons_self _ _)
    have ht := ih fun x hx => h x (List.mem_cons_of_mem _ hx)
    simp only [bytesToNat, List.length_cons, pow_succ]
    generalize 256 ^ t.length = N at ht ⊢
    omega

/-- Byte sequences of equal length with equal decodings are equal. -/
theorem bytesToNat_inj : ∀ l1 l2 : List Nat, l1.length = l2.length →
    (∀ x ∈ l1, x < 256) → (∀ x ∈ l2, x < 256) →
    bytesToNat l1 = bytesToNat l2 → l1 = l2 := by
  intro l1
  induction l1 with
  | nil =>
    intro l2 hlen _ _ _
    cases l2 with
    | nil => rfl
    | cons b t => simp at hlen
  | cons b t ih =>
    intro l2 hlen h1 h2 h
    cases l2 with
    | nil => simp at hlen
    | cons b2 t2 =>
      simp only [bytesToNat] at h
      have hb1 := h1 b (List.mem_cons_self _ _)
      have hb2 := h2 b2 (List.mem_cons_self _ _)
      have hb : b = b2 := by omega
      have hr : bytesToNat t = bytesToNat t2 := by omega
      rw [hb, ih t2 (by simpa using hlen) (fun x hx => h1 x (List.mem_cons_of_mem _ hx))
        (fun x hx => h2 x (List.mem_cons_of_mem _ hx)) hr]

/-- An MD5 digest always has sixteen bytes. -/
theorem md5Bytes_length (msg : List Nat) : (md5Bytes msg).length = 16 := rfl

/-- Every MD5 digest byte is below 256. -/
theorem md5Bytes_bound (msg : List Nat) : ∀ x ∈ md5Bytes msg, x < 256 := by
  intro x hx
  unfold md5Bytes at hx
  simp only [List.mem_cons, List.not_mem_nil, or_false] at hx
  rcases hx with h | h | h | h | h | h | h | h | h | h | h | h | h | h | h | h
  all_goals subst h
  all_goals exact Nat.mod_lt _ (by omega)

/-- Unboundedly many distinct method names. -/
def methodOfNat (n : Nat) : String :=
  String.mk (List.replicate n 'a')

/-- The decoded digest value of a request's fingerprint pre-image. -/
def digestNat (m : String) : Nat :=
  bytesToNat (md5Bytes (strBytes (cache_data m [])))

/-- C1: for every method name and every two parameter mappings holding
exactly the same key/value pairs (same pairs, any insertion order), the
cache fingerprint `_get_cache_key` returns the same key, because the
keys are sorted before serialization and the function depends on nothing
but its inputs. -/
theorem fingerprint_deterministic (m : String) (P1 P2 : Params)
    (hperm : P1.Perm P2) (hnd : (P1.map Prod.fst).Nodup) :
    get_cache_key m P1 = get_cache_key m P2 := by
  unfold get_cache_key cache_data jsonDumpsSortKeys
  rw [insertionSort_eq_of_perm P1 P2 hperm hnd]

/-- Witness for C1 at concrete reordered mappings. -/
theorem fingerprint_deterministic_witness :
    ([("b", JVal.jnum 2), ("a", JVal.jstr "x")] : Params).Perm
        [("a", JVal.jstr "x"), ("b", JVal.jnum 2)]
    ∧ (([("b", JVal.jnum 2), ("a", JVal.jstr "x")] : Params).map Prod.fst).Nodup
    ∧ get_cache_key "PullDeals" [("b", JVal.jnum 2), ("a", JVal.jstr "x")]
        = get_cache_key "PullDeals" [("a", JVal.jstr "x"), ("b", JVal.jnum 2)] :=
  ⟨by decide, by decide,
    fingerprint_deterministic "PullDeals" _ _ (by decide) (by decide)⟩

/-- C2: an entry present in the cache with timestamp `T` is judged valid
by `_is_cache_valid` exactly when `now - T < ttl`; in particular it is
valid at `T + ttl - 1` and invalid at `T + ttl`; a fingerprint with no
cache entry is never valid. -/
theorem cache_ttl_boundary (cache : Cache) (key : String) (e : CacheEntry) (now ttl : Int) :
    (lookupEntry cache key = some e →
      (is_cache_valid cache key now ttl = true ↔ now - e.timestamp < ttl)
      ∧ is_cache_valid cache key (e.timestamp + ttl - 1) ttl = true
      ∧ is_cache_valid cache key (e.timestamp + ttl) ttl = false)
    ∧ (lookupEntry cache key = none → is_cache_valid cache key now ttl = false) := by
  constructor
  · intro hl
    refine ⟨by simp [is_cache_valid, hl], ?_, ?_⟩
    · simp only [is_cache_valid, hl]
      simp only [decide_eq_true_eq]
      omega
    · simp only [is_cache_valid, hl]
      simp only [decide_eq_false_iff_not]
      omega
  · intro hl
    simp [is_cache_valid, hl]

/-- Witness for C2 on a one-entry cache and on a missing key. -/
theorem cache_ttl_boundary_witness :
    (lookupEntry [("k", ⟨[("a", "1")], 100⟩)] "k" = some ⟨[("a", "1")], 100⟩
      ∧ ((is_cache_valid [("k", ⟨[("a", "1")], 100⟩)] "k" 150 300 = true ↔ (150 : Int) - 100 < 300)
        ∧ is_cache_valid [("k", ⟨[("a", "1")], 100⟩)] "k" (100 + 300 - 1) 300 = true
        ∧ is_cache_valid [("k", ⟨[("a", "1")], 100⟩)] "k" (100 + 300) 300 = false))
    ∧ (lookupEntry [("k", ⟨[("a", "1")], 100⟩)] "absent" = none
      ∧ is_cache_valid [("k", ⟨[("a", "1")], 100⟩)] "absent" 150 300 = false) :=
  ⟨⟨rfl, (cache_ttl_boundary [("k", ⟨[("a", "1")], 100⟩)] "k" ⟨[("a", "1")], 100⟩ 150 300).1 rfl⟩,
   ⟨rfl, (cache_ttl_boundary [("k", ⟨[("a", "1")], 100⟩)] "absent" ⟨[("a", "1")], 100⟩ 150 300).2 rfl⟩⟩

/-- C5: unparseable (malformed XML) input makes the response normalizer
return the `'error'` mapping — distinguishable from a valid empty
mapping, never a silent empty result. -/
theorem malformed_input_yields_error :
    parse_soap_response none = [("error", "Failed to parse response")]
    ∧ parse_soap_response none ≠ ([] : ResponseData) :=
  ⟨rfl, by simp [parse_soap_response]⟩

/-- C6: a well-formed response whose document contains no body element
normalizes to the empty mapping, not an error. -/
theorem empty_body_normalizes_to_empty (root : XmlNode) (h : findBody root = none) :
    parse_soap_response (some root) = ([] : ResponseData)
    ∧ parse_soap_response (some root) ≠ [("error", "Failed to parse response")] := by
  constructor
  · simp [parse_soap_response, h]
  · simp [parse_soap_response, h]

/-- C3: when the cache holds a valid (unexpired) entry for the request's
fingerprint, `_make_api_request` returns that entry's stored value, does
not invoke the transport, and leaves the cache unchanged. -/
theorem cache_hit_avoids_transport (ttl : Int) (cache : Cache) (now : Int)
    (m : String) (P : Params) (tr : TransportResult) (e : CacheEntry)
    (hlook : lookupEntry cache (get_cache_key m P) = some e)
    (hvalid : is_cache_valid cache (get_cache_key m P) now ttl = true) :
    make_api_request ttl cache now m P tr = ⟨e.data, cache, false⟩ := by
  simp [make_api_request, hvalid, cachedData, hlook]

/-- Witness for C3 on a one-entry cache keyed by the fingerprint of
`GetDivisions` with empty parameters. -/
theorem cache_hit_avoids_transport_witness :
    lookupEntry [(get_cache_key "GetDivisions" [], ⟨[("GetDivisionsResult", "ok")], 100⟩)]
        (get_cache_key "GetDivisions" []) = some ⟨[("GetDivisionsResult", "ok")], 100⟩
    ∧ is_cache_valid [(get_cache_key "GetDivisions" [], ⟨[("GetDivisionsResult", "ok")], 100⟩)]
        (get_cache_key "GetDivisions" []) 150 300 = true
    ∧ make_api_request 300
        [(get_cache_key "GetDivisions" [], ⟨[("GetDivisionsResult", "ok")], 100⟩)]
        150 "GetDivisions" [] (.requestError "network down")
      = ⟨[("GetDivisionsResult", "ok")],
         [(get_cache_key "GetDivisions" [], ⟨[("GetDivisionsResult", "ok")], 100⟩)], false⟩ := by
  have hlook : lookupEntry
      [(get_cache_key "GetDivisions" [], ⟨[("GetDivisionsResult", "ok")], 100⟩)]
      (get_cache_key "GetDivisions" []) = some ⟨[("GetDivisionsResult", "ok")], 100⟩ := by
    simp [lookupEntry, List.lookup]
  have hvalid : is_cache_valid
      [(get_cache_key "GetDivisions" [], ⟨[("GetDivisionsResult", "ok")], 100⟩)]
      (get_cache_key "GetDivisions" []) 150 300 = true := by
    unfold is_cache_valid
    rw [hlook]
    decide
  exact ⟨hlook, hvalid,
    cache_hit_avoids_transport 300 _ 150 "GetDivisions" [] (.requestError "network down")
      ⟨[("GetDivisionsResult", "ok")], 100⟩ hlook hvalid⟩

/-- C4: on a cache miss, a transport failure — a request exception
(network error or non-success HTTP status) or any unexpected exception —
is converted into a returned mapping carrying an `'error'` field rather
than a propagated exception, and the cache is left unchanged. -/
theorem transport_failure_error_mapping (ttl : Int) (cache : Cache) (now : Int)
    (m : String) (P : Params) (msg : String)
    (hmiss : is_cache_valid cache (get_cache_key m P) now ttl = false) :
    (make_api_request ttl cache now m P (.requestError msg)
        = ⟨[("error", "API request failed: " ++ msg)], cache, true⟩
      ∧ (make_api_request ttl cache now m P (.requestError msg)).result.lookup "error"
        = some ("API request failed: " ++ msg))
    ∧ (make_api_request ttl cache now m P (.unexpectedError msg)
        = ⟨[("error", "Unexpected error: " ++ msg)], cache, true⟩
      ∧ (make_api_request ttl cache now m P (.unexpectedError msg)).result.lookup "error"
        = some ("Unexpected error: " ++ msg)) := by
  refine ⟨⟨?_, ?_⟩, ?_, ?_⟩ <;> simp [make_api_request, hmiss, List.lookup]

/-- Witness for C4 on the empty cache. -/
theorem transport_failure_error_mapping_witness :
    is_cache_valid [] (get_cache_key "PullInventory" []) 50 300 = false
    ∧ make_api_request 300 [] 50 "PullInventory" [] (.requestError "timeout")
      = ⟨[("error", "API request failed: " ++ "timeout")], [], true⟩ :=
  ⟨rfl,
    ((transport_failure_error_mapping 300 [] 50 "PullInventory" [] "timeout" rfl).1).1⟩

/-- C7: `clear_cache` empties the cache and reports the prior entry
count in its message; any call issued against the cleared cache is a
cache miss and invokes the transport. -/
theorem clear_cache_resets (cache : Cache) (nowIso : String) (ttl now : Int)
    (m : String) (P : Params) (tr : TransportResult) :
    (clear_cache cache nowIso).1.message
        = "Cleared " ++ toString cache.length ++ " cached items"
    ∧ (clear_cache cache nowIso).2 = []
    ∧ is_cache_valid (clear_cache cache nowIso).2 (get_cache_key m P) now ttl = false
    ∧ (make_api_request ttl (clear_cache cache nowIso).2 now m P tr).transportCalled = true := by
  refine ⟨rfl, rfl, rfl, ?_⟩
  cases tr
  all_goals simp [make_api_request, is_cache_valid, lookupEntry, clear_cache]

/-- C8: the envelope is exactly the fixed header — the authentication
block with username and password, the method opening tag, and the four
identifying fields from configuration — followed by exactly the
non-null parameters rendered as named fields in mapping iteration order
(parameters with null value are omitted), followed by the footer closing
the method element; the builder is a pure function of these inputs. -/
theorem envelope_structure (cfg : ServiceConfig) (m : String) (ps : Params) :
    create_soap_envelope cfg m ps
      = envelopeHeader cfg m
        ++ concatAll ((ps.filter (fun kv => kv.2 ≠ JVal.jnull)).map paramField)
        ++ envelopeFooter m := by
  unfold create_soap_envelope
  rw [foldl_paramField]

/-- C10: when the transport succeeds but the response body is
unparseable, the normalizer's `'error'` mapping is itself cached under
the request fingerprint, so an identical call within the TTL window
returns it as a cache hit with no transport invocation — unlike a
transport failure, which leaves the cache unchanged. -/
theorem parse_failure_result_cached (ttl : Int) (cache : Cache) (now now2 : Int)
    (m : String) (P : Params) (tr2 : TransportResult) (msg : String)
    (hmiss : is_cache_valid cache (get_cache_key m P) now ttl = false)
    (hwin : now2 - now < ttl) :
    make_api_request ttl cache now m P (.success none)
      = ⟨[("error", "Failed to parse response")],
         dictInsert cache (get_cache_key m P)
           ⟨[("error", "Failed to parse response")], now⟩, true⟩
    ∧ make_api_request ttl
        (dictInsert cache (get_cache_key m P)
          ⟨[("error", "Failed to parse response")], now⟩) now2 m P tr2
      = ⟨[("error", "Failed to parse response")],
         dictInsert cache (get_cache_key m P)
           ⟨[("error", "Failed to parse response")], now⟩, false⟩
    ∧ (make_api_request ttl cache now m P (.requestError msg)).cache = cache := by
  have hl := lookup_dictInsert cache (get_cache_key m P)
    ⟨[("error", "Failed to parse response")], now⟩
  have hv : is_cache_valid
      (dictInsert cache (get_cache_key m P) ⟨[("error", "Failed to parse response")], now⟩)
      (get_cache_key m P) now2 ttl = true := by
    unfold is_cache_valid
    rw [hl]
    simpa using hwin
  refine ⟨?_, ?_, ?_⟩
  · simp [make_api_request, hmiss, parse_soap_response]
  · simp [make_api_request, hv, cachedData, hl]
  · simp [make_api_request, hmiss]

/-- Witness for C10: empty cache, `GetDivisions` with no parameters,
a second call 100 seconds later within a 300-second TTL. -/
theorem parse_failure_result_cached_witness :
    is_cache_valid [] (get_cache_key "GetDivisions" []) 0 300 = false
    ∧ (0 : Int) + 100 - 0 < 300
    ∧ (make_api_request 300 [] 0 "GetDivisions" [] (.success none)
        = ⟨[("error", "Failed to parse response")],
           dictInsert [] (get_cache_key "GetDivisions" [])
             ⟨[("error", "Failed to parse response")], 0⟩, true⟩
      ∧ make_api_request 300
          (dictInsert [] (get_cache_key "GetDivisions" [])
            ⟨[("error", "Failed to parse response")], 0⟩) (0 + 100) "GetDivisions" []
          (.requestError "down")
        = ⟨[("error", "Failed to parse response")],
           dictInsert [] (get_cache_key "GetDivisions" [])
             ⟨[("error", "Failed to parse response")], 0⟩, false⟩
      ∧ (make_api_request 300 [] 0 "GetDivisions" [] (.requestError "down")).cache = []) :=
  ⟨rfl, by decide,
    parse_failure_result_cached 300 [] 0 (0 + 100) "GetDivisions" []
      (.requestError "down") "down" rfl (by decide)⟩

/-- Witness for C6 on a concrete body-less document. -/
theorem empty_body_normalizes_to_empty_witness :
    findBody (XmlNode.elem "Envelope" none [XmlNode.elem "Header" (some "x") []]) = none
    ∧ parse_soap_response (some (XmlNode.elem "Envelope" none
        [XmlNode.elem "Header" (some "x") []])) = ([] : ResponseData) :=
  ⟨rfl, (empty_body_normalizes_to_empty
    (XmlNode.elem "Envelope" none [XmlNode.elem "Header" (some "x") []]) rfl).1⟩


/-- C9 (amended): the fingerprint pre-image `cache_data` is injective —
changing the method name (same parameters) or the parameter mapping
(up to reordering) always changes the serialized string that is hashed;
the md5 digests themselves only coincide if md5 collides on two
distinct serializations. -/
theorem fingerprint_sensitivity_preimage :
    (∀ (m1 m2 : String) (P : Params), m1 ≠ m2 → cache_data m1 P ≠ cache_data m2 P)
    ∧ (∀ (m : String) (P1 P2 : Params), ¬P1.Perm P2 → cache_data m P1 ≠ cache_data m P2) := by
  constructor
  · intro m1 m2 P hne hEq
    apply hne
    have hd := congrArg String.data hEq
    unfold cache_data at hd
    simp only [String.data_append, List.append_assoc] at hd
    exact string_data_ext (List.append_left_injective _ hd)
  · intro m P1 P2 hnp hEq
    apply hnp
    have hd := congrArg String.data hEq
    unfold cache_data at hd
    simp only [String.data_append, List.append_assoc] at hd
    have h1 := List.append_cancel_left hd
    have h2 := List.append_cancel_left h1
    have hs := jsonDumpsSortKeys_inj (string_data_ext h2)
    have hp2 := List.perm_insertionSort keyLe P2
    rw [← hs] at hp2
    exact (List.perm_insertionSort keyLe P1).symm.trans hp2

/-- Witness for the amended C9 at concrete distinct requests. -/
theorem fingerprint_sensitivity_preimage_witness :
    ("PullDeals" : String) ≠ "PullInventory"
    ∧ cache_data "PullDeals" [] ≠ cache_data "PullInventory" []
    ∧ ¬([("a", JVal.jnum 1)] : Params).Perm [("a", JVal.jnum 2)]
    ∧ cache_data "PullDeals" [("a", JVal.jnum 1)] ≠ cache_data "PullDeals" [("a", JVal.jnum 2)] :=
  ⟨by decide,
   fingerprint_sensitivity_preimage.1 "PullDeals" "PullInventory" [] (by decide),
   by decide,
   fingerprint_sensitivity_preimage.2 "PullDeals" [("a", JVal.jnum 1)] [("a", JVal.jnum 2)]
     (by decide)⟩

/-- C9 (counterexample to the claim as stated): absolute collision
freedom is impossible — the digest space is finite while the request
space is not, so two distinct requests (different method names, same
parameters) with the same fingerprint exist. -/
theorem fingerprint_collision_exists :
    ∃ m1 m2 : String, m1 ≠ m2 ∧ get_cache_key m1 [] = get_cache_key m2 [] := by
  have hmaps : ∀ n ∈ Finset.range (256 ^ 16 + 1),
      digestNat (methodOfNat n) ∈ Finset.range (256 ^ 16) := by
    intro n _
    rw [Finset.mem_range]
    unfold digestNat
    have hb := md5Bytes_bound (strBytes (cache_data (methodOfNat n) []))
    have hlt := bytesToNat_lt _ hb
    rw [md5Bytes_length] at hlt
    exact hlt
  have hcard : (Finset.range (256 ^ 16)).card < (Finset.range (256 ^ 16 + 1)).card := by
    rw [Finset.card_range, Finset.card_range]
    exact Nat.lt_succ_self _
  obtain ⟨n1, hn1, n2, hn2, hne, heq⟩ :=
    Finset.exists_ne_map_eq_of_card_lt_of_maps_to hcard hmaps
  refine ⟨methodOfNat n1, methodOfNat n2, ?_, ?_⟩
  · intro hEq
    apply hne
    have hd := congrArg String.data hEq
    rw [show (methodOfNat n1).data = List.replicate n1 'a' from rfl,
      show (methodOfNat n2).data = List.replicate n2 'a' from rfl] at hd
    have hlen := congrArg List.length hd
    simpa using hlen
  · have hdig : md5Bytes (strBytes (cache_data (methodOfNat n1) []))
        = md5Bytes (strBytes (cache_data (methodOfNat n2) [])) := by
      apply bytesToNat_inj _ _ (by rw [md5Bytes_length, md5Bytes_length])
        (md5Bytes_bound _) (md5Bytes_bound _)
      exact heq
    unfold get_cache_key md5Hex
    rw [hdig]
